import Mathlib

/-!
Shallow embedding of the adaptive pacing iterator (`Heartbeat` in
`cardaio/_core.py`).  Delays and clock readings are modelled as rationals;
the injected clock is modelled by passing the successive readings that the
code would obtain from `now()` as explicit arguments, in the order the code
calls `now()`.  Failures that the Python code signals by raising
(`AssertionError` in the constructor and in the `delay` setter, a
cancellation signal inside async `sleep`) are modelled with `Except`,
paired with the state the object is left in.
-/

/-- State of a `Heartbeat` object: the five rational slots
`_fastest`, `_slowest`, `_ratio`, `_delay`, `_prev` of the Python class
(the `_callbacks` list and the injected `_now` callable carry no pacing
state and are modelled externally). -/
structure Heartbeat where
  fastest : ℚ
  slowest : ℚ
  ratio : ℚ
  delay : ℚ
  prev : ℚ
deriving DecidableEq

/-- Which of the four constructor assertions failed, in source order:
`assert fastest >= 0`, `assert slowest > fastest`,
`assert fastest <= start <= slowest`, `assert ratio > 1`. -/
inductive InitError where
  | nonNegFastest
  | slowestGtFastest
  | startInRange
  | ratioGtOne
deriving DecidableEq

/-- Failure of the `assert self._fastest <= rate <= self._slowest` check in
the `delay` setter (the spec calls this error `OutOfRange`). -/
inductive OutOfRange where
  | mk
deriving DecidableEq

deriving instance DecidableEq for Except

/-- A `datetime.timedelta` value, represented by its normalized
`days`/`seconds`/`microseconds` components. -/
structure Timedelta where
  days : ℤ
  seconds : ℤ
  microseconds : ℤ
deriving DecidableEq

/-- CPython `timedelta.total_seconds()`:
`((days * 86400 + seconds) * 10**6 + microseconds) / 10**6`. -/
def Timedelta.total_seconds (t : Timedelta) : ℚ :=
  ((t.days * 86400 + t.seconds) * 1000000 + t.microseconds) / 1000000

/-- A constructor argument that is either a plain number of seconds or a
`timedelta` value (`float | timedelta` in the Python signature). -/
inductive DurationArg where
  | sec (x : ℚ)
  | td (t : Timedelta)
deriving DecidableEq

/-- The conversion the constructor applies to each duration argument:
`timedelta` values are replaced by `total_seconds()`, numbers are kept. -/
def DurationArg.toSeconds : DurationArg → ℚ
  | .sec x => x
  | .td t => t.total_seconds

/-- Resolution of the `start` argument: an explicit argument is converted
to seconds, an omitted one (`start is None`) defaults to the midpoint
`(fastest + slowest) / 2`. -/
def resolveStart (start : Option DurationArg) (f s : ℚ) : ℚ :=
  match start with
  | some a => a.toSeconds
  | none => (f + s) / 2

/-- CPython `max(a, b)`: keeps the first argument unless the second is
strictly larger (modelled explicitly because the source calls builtin
`max`). -/
def pymax (a b : ℚ) : ℚ := if a < b then b else a

/-- CPython `min(a, b)`: keeps the first argument unless the second is
strictly smaller. -/
def pymin (a b : ℚ) : ℚ := if b < a then b else a

/-- Python `Heartbeat.__init__`: converts each duration argument, then runs the
four assertions in source order; on success the state is
`delay = start`, `prev = -start`. -/
def Heartbeat.init (fastest slowest : DurationArg) (start : Option DurationArg)
    (ratio : ℚ) : Except InitError Heartbeat :=
  if 0 ≤ fastest.toSeconds then
    if fastest.toSeconds < slowest.toSeconds then
      if fastest.toSeconds ≤ resolveStart start fastest.toSeconds slowest.toSeconds ∧
          resolveStart start fastest.toSeconds slowest.toSeconds ≤ slowest.toSeconds then
        if 1 < ratio then
          .ok { fastest := fastest.toSeconds, slowest := slowest.toSeconds, ratio := ratio,
                delay := resolveStart start fastest.toSeconds slowest.toSeconds,
                prev := -(resolveStart start fastest.toSeconds slowest.toSeconds) }
        else .error .ratioGtOne
      else .error .startInRange
    else .error .slowestGtFastest
  else .error .nonNegFastest

/-- Python `Heartbeat.faster`: saturated at `fastest`, otherwise divide the delay
by `ratio`, clamped from below by `fastest`. -/
def Heartbeat.faster (h : Heartbeat) : Bool × Heartbeat :=
  if h.delay ≤ h.fastest then (false, h)
  else (true, { h with delay := pymax h.fastest (h.delay / h.ratio) })

/-- Python `Heartbeat.slower`: saturated at `slowest`, otherwise multiply the
delay by `ratio`, clamped from above by `slowest`. -/
def Heartbeat.slower (h : Heartbeat) : Bool × Heartbeat :=
  if h.slowest ≤ h.delay then (false, h)
  else (true, { h with delay := pymin h.slowest (h.delay * h.ratio) })

/-- The `delay` property setter: asserts
`self._fastest <= rate <= self._slowest` and then assigns; the assertion
fires before any mutation, so on failure the state is returned
unchanged. -/
def Heartbeat.setDelay (h : Heartbeat) (rate : ℚ) : Except OutOfRange Unit × Heartbeat :=
  if h.fastest ≤ rate ∧ rate ≤ h.slowest then (.ok (), { h with delay := rate })
  else (.error .mk, h)

/-- Python `Heartbeat._get_pause` evaluated at clock reading `t`:
`elapsed = t - prev`, `pause = delay - elapsed`, clamped to `0` when not
positive. -/
def Heartbeat.getPause (h : Heartbeat) (t : ℚ) : ℚ :=
  if h.delay - (t - h.prev) ≤ 0 then 0 else h.delay - (t - h.prev)

/-- Python `Heartbeat.__next__` (blocking wait) run against the three clock
readings it performs: the first `_get_pause`, the second `_get_pause`,
and the final `self._prev = self._now()`.  The result is the list of
arguments handed to `time.sleep`, together with the final state. -/
def Heartbeat.nextRun (h : Heartbeat) (t1 t2 t3 : ℚ) : List ℚ × Heartbeat :=
  ([h.getPause t1 / 2, h.getPause t2], { h with prev := t3 })

/-- Python `Heartbeat.wait` (suspending wait) run against its three clock
readings: the list of arguments handed to `asyncio.sleep`, and the final
state. -/
def Heartbeat.waitRun (h : Heartbeat) (t1 t2 t3 : ℚ) : List ℚ × Heartbeat :=
  ([h.getPause t1 / 2, h.getPause t2], { h with prev := t3 })

/-- Python `Heartbeat.__anext__`, which just delegates to `wait`. -/
def Heartbeat.anextRun (h : Heartbeat) (t1 t2 t3 : ℚ) : List ℚ × Heartbeat :=
  h.waitRun t1 t2 t3

/-- A wait during which another logical context (a thread, or another task
scheduled while the first `await asyncio.sleep` is suspended) applies the
state adjustment `adjust` between the two sleep phases.  The second
`_get_pause` call reads the then-current `self._delay`, i.e. the adjusted
state, exactly as the source does. -/
def Heartbeat.nextRunMid (h : Heartbeat) (adjust : Heartbeat → Heartbeat) (t1 t2 t3 : ℚ) :
    List ℚ × Heartbeat :=
  ([h.getPause t1 / 2, (adjust h).getPause t2], { adjust h with prev := t3 })

/-- A wait in which either sleep phase may raise a cancellation signal
carrying a value of type `ε` (`c1`/`c2` say whether the first/second
`sleep` raises).  `wait` installs no handler, so the signal propagates
as-is; the only mutation, `self._prev = self._now()`, sits after both
sleeps.  The function returns the propagated signal or the performed
sleep arguments, together with the state the object is left in. -/
def Heartbeat.waitRunCancel {ε : Type} (h : Heartbeat) (t1 t2 t3 : ℚ)
    (c1 c2 : Option ε) : Except ε (List ℚ) × Heartbeat :=
  match c1 with
  | some e => (.error e, h)
  | none =>
    match c2 with
    | some e => (.error e, h)
    | none => (.ok [h.getPause t1 / 2, h.getPause t2], { h with prev := t3 })

/-- One delay-adjustment call: `faster()`, `slower()`, or the `delay`
setter with a given argument. -/
inductive Op where
  | faster
  | slower
  | setDelay (rate : ℚ)

/-- The state after performing one adjustment call (return values and
raised assertions are dropped; a failed setter leaves the state as it
was). -/
def Heartbeat.applyOp (h : Heartbeat) (op : Op) : Heartbeat :=
  match op with
  | .faster => (h.faster).2
  | .slower => (h.slower).2
  | .setDelay rate => (h.setDelay rate).2

/-- The state after a finite sequence of adjustment calls. -/
def Heartbeat.applyOps (h : Heartbeat) (ops : List Op) : Heartbeat :=
  ops.foldl Heartbeat.applyOp h

/-- Well-formedness of a `Heartbeat` state: the constructor-validated
facts about the immutable slots, plus the delay-bounds invariant. -/
def Heartbeat.WF (h : Heartbeat) : Prop :=
  0 ≤ h.fastest ∧ h.fastest < h.slowest ∧ 1 < h.ratio ∧
    h.fastest ≤ h.delay ∧ h.delay ≤ h.slowest

/-- CPython `max` agrees with the mathematical maximum on rationals. -/
theorem pymax_eq_max (a b : ℚ) : pymax a b = max a b := by
  unfold pymax
  rcases lt_or_le a b with hc | hc
  · rw [if_pos hc, max_eq_right hc.le]
  · rw [if_neg (not_lt.mpr hc), max_eq_left hc]

/-- CPython `min` agrees with the mathematical minimum on rationals. -/
theorem pymin_eq_min (a b : ℚ) : pymin a b = min a b := by
  unfold pymin
  rcases lt_or_le b a with hc | hc
  · rw [if_pos hc, min_eq_right hc.le]
  · rw [if_neg (not_lt.mpr hc), min_eq_left hc]

/-- The clamp in `_get_pause` is the truncation at zero. -/
theorem getPause_eq_max (h : Heartbeat) (t : ℚ) :
    h.getPause t = max 0 (h.delay - (t - h.prev)) := by
  unfold Heartbeat.getPause
  rcases le_or_lt (h.delay - (t - h.prev)) 0 with hc | hc
  · rw [if_pos hc, max_eq_left hc]
  · rw [if_neg (not_le.mpr hc), max_eq_right hc.le]

/-- The function `_get_pause` never returns a negative value. -/
theorem getPause_nonneg (h : Heartbeat) (t : ℚ) : 0 ≤ h.getPause t := by
  rw [getPause_eq_max]
  exact le_max_left _ _

/-- C2: saturation and geometric stepping of `faster`/`slower`.  At or
below `fastest`, `faster()` returns `False` and changes nothing;
otherwise it returns `True` and sets the delay to
`max(fastest, delay / ratio)`.  Symmetrically, at or above `slowest`,
`slower()` returns `False` and changes nothing; otherwise it returns
`True` and sets the delay to `min(slowest, delay * ratio)`.  Both
operations are total functions of the state: no error is possible. -/
theorem faster_slower_step (h : Heartbeat) :
    (h.delay ≤ h.fastest → h.faster = (false, h)) ∧
    (h.fastest < h.delay →
      h.faster = (true, { h with delay := max h.fastest (h.delay / h.ratio) })) ∧
    (h.slowest ≤ h.delay → h.slower = (false, h)) ∧
    (h.delay < h.slowest →
      h.slower = (true, { h with delay := min h.slowest (h.delay * h.ratio) })) := by
  refine ⟨?_, ?_, ?_, ?_⟩
  · intro hc
    unfold Heartbeat.faster
    rw [if_pos hc]
  · intro hc
    unfold Heartbeat.faster
    rw [if_neg (not_le.mpr hc), pymax_eq_max]
  · intro hc
    unfold Heartbeat.slower
    rw [if_pos hc]
  · intro hc
    unfold Heartbeat.slower
    rw [if_neg (not_le.mpr hc), pymin_eq_min]

/-- C2 witness: all four cases of `faster_slower_step` evaluated on
concrete states. -/
theorem faster_slower_step_witness :
    (⟨1, 8, 2, 1, 0⟩ : Heartbeat).faster = (false, ⟨1, 8, 2, 1, 0⟩) ∧
    (⟨0, 10, 2, 8, 0⟩ : Heartbeat).faster =
      (true, ⟨0, 10, 2, max 0 ((8 : ℚ) / 2), 0⟩) ∧
    (⟨1, 8, 2, 8, 0⟩ : Heartbeat).slower = (false, ⟨1, 8, 2, 8, 0⟩) ∧
    (⟨1, 10, 2, 4, 0⟩ : Heartbeat).slower =
      (true, ⟨1, 10, 2, min 10 ((4 : ℚ) * 2), 0⟩) :=
  ⟨(faster_slower_step ⟨1, 8, 2, 1, 0⟩).1 (by decide),
   (faster_slower_step ⟨0, 10, 2, 8, 0⟩).2.1 (by decide),
   (faster_slower_step ⟨1, 8, 2, 8, 0⟩).2.2.1 (by decide),
   (faster_slower_step ⟨1, 10, 2, 4, 0⟩).2.2.2 (by decide)⟩

/-- C7: the `delay` setter assigns exactly the requested value when it
lies within `[fastest, slowest]` (bounds inclusive), and otherwise raises
`OutOfRange` leaving the whole state unchanged. -/
theorem set_delay_spec (h : Heartbeat) (v : ℚ) :
    (h.fastest ≤ v ∧ v ≤ h.slowest →
      h.setDelay v = (.ok (), { h with delay := v })) ∧
    (¬(h.fastest ≤ v ∧ v ≤ h.slowest) →
      h.setDelay v = (.error .mk, h)) := by
  constructor
  · intro hc
    unfold Heartbeat.setDelay
    rw [if_pos hc]
  · intro hc
    unfold Heartbeat.setDelay
    rw [if_neg hc]

/-- C7 witness: both branches of `set_delay_spec` on concrete states. -/
theorem set_delay_spec_witness :
    (⟨1, 8, 2, 4, 0⟩ : Heartbeat).setDelay 3 = (.ok (), ⟨1, 8, 2, 3, 0⟩) ∧
    (⟨1, 8, 2, 4, 0⟩ : Heartbeat).setDelay 100 = (.error .mk, ⟨1, 8, 2, 4, 0⟩) :=
  ⟨(set_delay_spec ⟨1, 8, 2, 4, 0⟩ 3).1 (by decide),
   (set_delay_spec ⟨1, 8, 2, 4, 0⟩ 100).2 (by decide)⟩

/-- C8: the blocking wait (`__next__`) and the suspending wait
(`wait`, and `__anext__` which delegates to it) are the same algorithm:
from the same state and the same clock readings they request the same
sleeps and produce the same final state. -/
theorem sync_async_agree (h : Heartbeat) (t1 t2 t3 : ℚ) :
    h.waitRun t1 t2 t3 = h.nextRun t1 t2 t3 ∧
    h.anextRun t1 t2 t3 = h.waitRun t1 t2 t3 :=
  ⟨rfl, rfl⟩

/-- C10: a `timedelta` argument in any of the three duration positions is
converted to its total seconds before validation, so it yields exactly
the same construction result as the plain-number form. -/
theorem timedelta_transparent (t : Timedelta) (fa sl : DurationArg)
    (st : Option DurationArg) (r : ℚ) :
    Heartbeat.init (.td t) sl st r = Heartbeat.init (.sec t.total_seconds) sl st r ∧
    Heartbeat.init fa (.td t) st r = Heartbeat.init fa (.sec t.total_seconds) st r ∧
    Heartbeat.init fa sl (some (.td t)) r =
      Heartbeat.init fa sl (some (.sec t.total_seconds)) r :=
  ⟨rfl, rfl, rfl⟩

/-- Elimination for a successful construction: field values and
well-formedness of the initial state. -/
theorem init_ok_elim {fa sl : DurationArg} {st : Option DurationArg} {r : ℚ}
    {h : Heartbeat} (hc : Heartbeat.init fa sl st r = .ok h) :
    h.fastest = fa.toSeconds ∧ h.slowest = sl.toSeconds ∧ h.ratio = r ∧
      h.delay = resolveStart st fa.toSeconds sl.toSeconds ∧
      h.prev = -h.delay ∧ h.WF := by
  unfold Heartbeat.init at hc
  split_ifs at hc with h1 h2 h3 h4
  · injection hc with hh
    subst hh
    exact ⟨rfl, rfl, rfl, rfl, rfl, h1, h2, h4, h3.1, h3.2⟩

/-- Operation `faster` preserves well-formedness. -/
theorem wf_faster {h : Heartbeat} (hw : h.WF) : (h.faster).2.WF := by
  obtain ⟨h0, hfs, hr, hld, hud⟩ := hw
  unfold Heartbeat.faster
  split_ifs with hc
  · exact ⟨h0, hfs, hr, hld, hud⟩
  · refine ⟨h0, hfs, hr, ?_, ?_⟩
    · show h.fastest ≤ pymax h.fastest (h.delay / h.ratio)
      rw [pymax_eq_max]
      exact le_max_left _ _
    · show pymax h.fastest (h.delay / h.ratio) ≤ h.slowest
      rw [pymax_eq_max]
      exact max_le hfs.le (le_trans (div_le_self (h0.trans hld) hr.le) hud)

/-- Operation `slower` preserves well-formedness. -/
theorem wf_slower {h : Heartbeat} (hw : h.WF) : (h.slower).2.WF := by
  obtain ⟨h0, hfs, hr, hld, hud⟩ := hw
  unfold Heartbeat.slower
  split_ifs with hc
  · exact ⟨h0, hfs, hr, hld, hud⟩
  · refine ⟨h0, hfs, hr, ?_, ?_⟩
    · show h.fastest ≤ pymin h.slowest (h.delay * h.ratio)
      rw [pymin_eq_min]
      exact le_min hfs.le (hld.trans (le_mul_of_one_le_right (h0.trans hld) hr.le))
    · show pymin h.slowest (h.delay * h.ratio) ≤ h.slowest
      rw [pymin_eq_min]
      exact min_le_left _ _

/-- The `delay` setter preserves well-formedness (a rejected value leaves
the state untouched). -/
theorem wf_setDelay {h : Heartbeat} (hw : h.WF) (v : ℚ) : (h.setDelay v).2.WF := by
  obtain ⟨h0, hfs, hr, hld, hud⟩ := hw
  unfold Heartbeat.setDelay
  split_ifs with hc
  · exact ⟨h0, hfs, hr, hc.1, hc.2⟩
  · exact ⟨h0, hfs, hr, hld, hud⟩

/-- Every single adjustment call preserves well-formedness. -/
theorem wf_applyOp {h : Heartbeat} (hw : h.WF) (op : Op) : (h.applyOp op).WF := by
  cases op with
  | faster => exact wf_faster hw
  | slower => exact wf_slower hw
  | setDelay rate => exact wf_setDelay hw rate

/-- Every finite sequence of adjustment calls preserves well-formedness. -/
theorem wf_applyOps (ops : List Op) (h : Heartbeat) (hw : h.WF) :
    (h.applyOps ops).WF := by
  induction ops generalizing h with
  | nil => exact hw
  | cons op rest ih => exact ih _ (wf_applyOp hw op)

/-- C1: from any validly constructed state, after any finite sequence of
`faster`/`slower`/`delay`-setter calls — hence, applying this to every
prefix, after every single call, and with the empty sequence immediately
after construction — the invariant `fastest ≤ delay ≤ slowest` holds. -/
theorem heartbeat_bounds_invariant (fa sl : DurationArg) (st : Option DurationArg)
    (r : ℚ) (h₀ : Heartbeat) (hinit : Heartbeat.init fa sl st r = .ok h₀)
    (ops : List Op) :
    (h₀.applyOps ops).fastest ≤ (h₀.applyOps ops).delay ∧
      (h₀.applyOps ops).delay ≤ (h₀.applyOps ops).slowest := by
  have hw := wf_applyOps ops h₀ (init_ok_elim hinit).2.2.2.2.2
  exact ⟨hw.2.2.2.1, hw.2.2.2.2⟩

/-- C1 witness: a concrete construction followed by a concrete call
sequence. -/
theorem heartbeat_bounds_invariant_witness :
    ((⟨1, 8, 2, 4, -4⟩ : Heartbeat).applyOps [.faster, .slower, .setDelay 3]).fastest ≤
        ((⟨1, 8, 2, 4, -4⟩ : Heartbeat).applyOps [.faster, .slower, .setDelay 3]).delay ∧
      ((⟨1, 8, 2, 4, -4⟩ : Heartbeat).applyOps [.faster, .slower, .setDelay 3]).delay ≤
        ((⟨1, 8, 2, 4, -4⟩ : Heartbeat).applyOps [.faster, .slower, .setDelay 3]).slowest :=
  heartbeat_bounds_invariant (.sec 1) (.sec 8) (some (.sec 4)) 2 ⟨1, 8, 2, 4, -4⟩
    (by decide) [.faster, .slower, .setDelay 3]

/-- C3: each blocking wait follows the two-phase algorithm: the first
sleep argument is half the pause `delay - (now - last_tick)` clamped at
zero, the second is the same pause recomputed from a fresh clock reading
with the identical clamp, both sleep arguments are nonnegative, and the
only state change is `prev := now()` taken after both phases. -/
theorem wait_two_phase (h : Heartbeat) (t1 t2 t3 : ℚ) :
    (h.nextRun t1 t2 t3).1 =
        [max 0 (h.delay - (t1 - h.prev)) / 2, max 0 (h.delay - (t2 - h.prev))] ∧
      (∀ x ∈ (h.nextRun t1 t2 t3).1, 0 ≤ x) ∧
      (h.nextRun t1 t2 t3).2 = { h with prev := t3 } := by
  refine ⟨?_, ?_, rfl⟩
  · show [h.getPause t1 / 2, h.getPause t2] = _
    rw [getPause_eq_max h t1, getPause_eq_max h t2]
  · intro x hx
    have hm : x = h.getPause t1 / 2 ∨ x = h.getPause t2 := by
      simpa [Heartbeat.nextRun] using hx
    rcases hm with rfl | rfl
    · exact div_nonneg (getPause_nonneg h t1) (by norm_num)
    · exact getPause_nonneg h t2

/-- C3 witness: a concrete run, with one member of the sleep list checked
nonnegative through the theorem. -/
theorem wait_two_phase_witness :
    ((⟨1, 8, 2, 4, 0⟩ : Heartbeat).nextRun 1 2 3).1 =
        [max 0 ((4 : ℚ) - (1 - 0)) / 2, max 0 ((4 : ℚ) - (2 - 0))] ∧
      ((3 : ℚ) / 2 ∈ ((⟨1, 8, 2, 4, 0⟩ : Heartbeat).nextRun 1 2 3).1 → 0 ≤ (3 : ℚ) / 2) ∧
      ((⟨1, 8, 2, 4, 0⟩ : Heartbeat).nextRun 1 2 3).2 = ⟨1, 8, 2, 4, 3⟩ :=
  ⟨(wait_two_phase ⟨1, 8, 2, 4, 0⟩ 1 2 3).1,
   fun hm => (wait_two_phase ⟨1, 8, 2, 4, 0⟩ 1 2 3).2.1 (3 / 2) hm,
   (wait_two_phase ⟨1, 8, 2, 4, 0⟩ 1 2 3).2.2⟩

/-- C9: a cancellation signal raised in either sleep phase propagates
unmodified, and the state — in particular `prev` (the spec's
`last_tick`) — is left exactly as it was; `prev` is assigned only when
both phases complete. -/
theorem cancelled_wait_no_mutation {ε : Type} (h : Heartbeat) (t1 t2 t3 : ℚ)
    (c1 c2 : Option ε) (e : ε) :
    (c1 = some e → h.waitRunCancel t1 t2 t3 c1 c2 = (.error e, h)) ∧
    (c1 = none → c2 = some e → h.waitRunCancel t1 t2 t3 c1 c2 = (.error e, h)) ∧
    (c1 = none → c2 = none →
      h.waitRunCancel t1 t2 t3 c1 c2 =
        (.ok [h.getPause t1 / 2, h.getPause t2], { h with prev := t3 })) := by
  refine ⟨?_, ?_, ?_⟩
  · rintro rfl
    rfl
  · rintro rfl rfl
    rfl
  · rintro rfl rfl
    rfl

/-- C9 witness: cancellation in the first and in the second phase on a
concrete state, with a concrete signal value. -/
theorem cancelled_wait_no_mutation_witness :
    (⟨1, 8, 2, 4, 0⟩ : Heartbeat).waitRunCancel 1 2 3 (some 7) none =
        (.error 7, ⟨1, 8, 2, 4, 0⟩) ∧
      (⟨1, 8, 2, 4, 0⟩ : Heartbeat).waitRunCancel 1 2 3 none (some (7 : ℕ)) =
        (.error 7, ⟨1, 8, 2, 4, 0⟩) :=
  ⟨(cancelled_wait_no_mutation ⟨1, 8, 2, 4, 0⟩ 1 2 3 (some 7) none 7).1 rfl,
   (cancelled_wait_no_mutation ⟨1, 8, 2, 4, 0⟩ 1 2 3 none (some 7) 7).2.1 rfl rfl⟩

/-- C4 counterexample: the first wait is not free for every monotone
clock.  With `fastest = 0`, `slowest = 2`, `start = 1`, `ratio = 2` and
the monotone non-decreasing clock readings `-1, -1/2, 0` (the spec allows
any monotone clock, with no sign restriction), the first wait computes the
nonzero pauses `[1/2, 1/2]`, so its total sleep duration is `1`, not `0`. -/
theorem first_wait_free_cex :
    Heartbeat.init (.sec 0) (.sec 2) (some (.sec 1)) 2 = .ok ⟨0, 2, 2, 1, -1⟩ ∧
      ((⟨0, 2, 2, 1, -1⟩ : Heartbeat).nextRun (-1) (-1/2) 0).1 ≠ [0, 0] ∧
      ((⟨0, 2, 2, 1, -1⟩ : Heartbeat).nextRun (-1) (-1/2) 0).1.sum ≠ 0 := by
  refine ⟨by decide, ?_, ?_⟩ <;> with_unfolding_all decide

/-- C4 (amended): provided the clock readings taken during the first wait
are nonnegative — which holds for the default clock, a monotonic
seconds-since-boot counter — the very first wait after construction
computes a zero pause in both phases and so sleeps for a total of zero,
regardless of `start`. -/
theorem first_wait_free (fa sl : DurationArg) (st : Option DurationArg) (r : ℚ)
    (h₀ : Heartbeat) (hinit : Heartbeat.init fa sl st r = .ok h₀)
    (t1 t2 t3 : ℚ) (ht1 : 0 ≤ t1) (ht2 : 0 ≤ t2) :
    (h₀.nextRun t1 t2 t3).1 = [0, 0] := by
  have hprev : h₀.prev = -h₀.delay := (init_ok_elim hinit).2.2.2.2.1
  have hp : ∀ t : ℚ, 0 ≤ t → h₀.getPause t = 0 := by
    intro t ht
    unfold Heartbeat.getPause
    rw [if_pos (by rw [hprev]; linarith)]
  show [h₀.getPause t1 / 2, h₀.getPause t2] = [0, 0]
  rw [hp t1 ht1, hp t2 ht2]
  norm_num

/-- C4 witness: the amended theorem on a concrete construction (with a
large `start`) and nonnegative clock readings. -/
theorem first_wait_free_witness :
    ((⟨0, 100, 2, 90, -90⟩ : Heartbeat).nextRun 0 1 2).1 = [0, 0] :=
  first_wait_free (.sec 0) (.sec 100) (some (.sec 90)) 2 ⟨0, 100, 2, 90, -90⟩
    (by decide) 0 1 2 (by decide) (by decide)

/-- C5 counterexample: an adjustment made between the two sleep phases of
a wait changes that same wait's total pause.  From the state with
`fastest = 0`, `slowest = 10`, `ratio = 2`, `delay = 8`, `prev = 0` and
clock readings `0, 4, 8`, an undisturbed wait sleeps `[4, 4]` (total `8`),
but if `faster()` runs between the phases the wait sleeps `[4, 0]`
(total `4`): the second `_get_pause` reads the already-updated delay. -/
theorem mid_adjust_cex :
    ((⟨0, 10, 2, 8, 0⟩ : Heartbeat).nextRunMid (fun x => (x.faster).2) 0 4 8).1.sum ≠
      ((⟨0, 10, 2, 8, 0⟩ : Heartbeat).nextRun 0 4 8).1.sum := by
  with_unfolding_all decide

/-- C5 (amended): the pause of the first sleep phase is fixed by the
delay read at the start of the wait — it is the same whatever adjustment
runs between the phases — but the second phase re-reads the current
delay, so an adjustment made while the wait is in progress does change
that wait's second pause and hence its total pause; a wait with no
mid-wait adjustment behaves exactly as `__next__`. -/
theorem mid_adjust_phases (h : Heartbeat) (adjust : Heartbeat → Heartbeat) (t1 t2 t3 : ℚ) :
    (h.nextRunMid adjust t1 t2 t3).1 =
        [max 0 (h.delay - (t1 - h.prev)) / 2,
          max 0 ((adjust h).delay - (t2 - (adjust h).prev))] ∧
      h.nextRunMid (fun x => x) t1 t2 t3 = h.nextRun t1 t2 t3 := by
  constructor
  · show [h.getPause t1 / 2, (adjust h).getPause t2] = _
    rw [getPause_eq_max h t1, getPause_eq_max (adjust h) t2]
  · rfl

/-- C6: construction fails — yielding no object — exactly when
`fastest < 0`, or `slowest ≤ fastest`, or the effective `start` lies
outside `[fastest, slowest]`, or `ratio ≤ 1`; the four checks run in that
order (the reported error is the first failing check); construction
succeeds for every other parameter combination. -/
theorem init_validation (fa sl : DurationArg) (st : Option DurationArg) (r : ℚ) :
    ((∃ h, Heartbeat.init fa sl st r = .ok h) ↔
      ¬(fa.toSeconds < 0 ∨ sl.toSeconds ≤ fa.toSeconds ∨
        resolveStart st fa.toSeconds sl.toSeconds < fa.toSeconds ∨
        sl.toSeconds < resolveStart st fa.toSeconds sl.toSeconds ∨ r ≤ 1)) ∧
    ((∃ e, Heartbeat.init fa sl st r = .error e) ↔
      (fa.toSeconds < 0 ∨ sl.toSeconds ≤ fa.toSeconds ∨
        resolveStart st fa.toSeconds sl.toSeconds < fa.toSeconds ∨
        sl.toSeconds < resolveStart st fa.toSeconds sl.toSeconds ∨ r ≤ 1)) ∧
    (fa.toSeconds < 0 → Heartbeat.init fa sl st r = .error .nonNegFastest) ∧
    (0 ≤ fa.toSeconds → sl.toSeconds ≤ fa.toSeconds →
      Heartbeat.init fa sl st r = .error .slowestGtFastest) ∧
    (0 ≤ fa.toSeconds → fa.toSeconds < sl.toSeconds →
      ¬(fa.toSeconds ≤ resolveStart st fa.toSeconds sl.toSeconds ∧
        resolveStart st fa.toSeconds sl.toSeconds ≤ sl.toSeconds) →
      Heartbeat.init fa sl st r = .error .startInRange) ∧
    (0 ≤ fa.toSeconds → fa.toSeconds < sl.toSeconds →
      fa.toSeconds ≤ resolveStart st fa.toSeconds sl.toSeconds →
      resolveStart st fa.toSeconds sl.toSeconds ≤ sl.toSeconds → r ≤ 1 →
      Heartbeat.init fa sl st r = .error .ratioGtOne) := by
  have hok : (∃ h, Heartbeat.init fa sl st r = .ok h) ↔
      ¬(fa.toSeconds < 0 ∨ sl.toSeconds ≤ fa.toSeconds ∨
        resolveStart st fa.toSeconds sl.toSeconds < fa.toSeconds ∨
        sl.toSeconds < resolveStart st fa.toSeconds sl.toSeconds ∨ r ≤ 1) := by
    constructor
    · rintro ⟨h, hh⟩
      unfold Heartbeat.init at hh
      split_ifs at hh with h1 h2 h3 h4
      push_neg
      exact ⟨not_lt.mp (fun hd => absurd h1 (not_le.mpr hd)), h2,
        h3.1, h3.2, h4⟩
    · intro hd
      push_neg at hd
      obtain ⟨hd1, hd2, hd3, hd4, hd5⟩ := hd
      refine ⟨⟨fa.toSeconds, sl.toSeconds, r, resolveStart st fa.toSeconds sl.toSeconds,
        -(resolveStart st fa.toSeconds sl.toSeconds)⟩, ?_⟩
      unfold Heartbeat.init
      rw [if_pos (not_lt.mp (fun hc => absurd hc (not_lt.mpr hd1))), if_pos hd2,
        if_pos ⟨hd3, hd4⟩, if_pos hd5]
  refine ⟨hok, ?_, ?_, ?_, ?_, ?_⟩
  · constructor
    · rintro ⟨e, he⟩
      by_contra hd
      obtain ⟨h, hh⟩ := hok.mpr hd
      rw [hh] at he
      exact Except.noConfusion he
    · intro hd
      cases he : Heartbeat.init fa sl st r with
      | error e => exact ⟨e, rfl⟩
      | ok h => exact absurd hd ((hok.mp ⟨h, he⟩))
  · intro hc
    unfold Heartbeat.init
    rw [if_neg (not_le.mpr hc)]
  · intro h1 h2
    unfold Heartbeat.init
    rw [if_pos h1, if_neg (not_lt.mpr h2)]
  · intro h1 h2 h3
    unfold Heartbeat.init
    rw [if_pos h1, if_pos h2, if_neg h3]
  · intro h1 h2 h3 h4 h5
    unfold Heartbeat.init
    rw [if_pos h1, if_pos h2, if_pos ⟨h3, h4⟩, if_neg (not_lt.mpr h5)]

/-- C6 witness: each of the four failure cases fired in order, and one
successful construction, all on concrete parameters. -/
theorem init_validation_witness :
    Heartbeat.init (.sec (-1)) (.sec 8) none 2 = .error .nonNegFastest ∧
      Heartbeat.init (.sec 6) (.sec 2) (some (.sec 4)) 2 = .error .slowestGtFastest ∧
      Heartbeat.init (.sec 2) (.sec 6) (some (.sec 1)) 2 = .error .startInRange ∧
      Heartbeat.init (.sec 2) (.sec 6) (some (.sec 4)) 1 = .error .ratioGtOne ∧
      (∃ h, Heartbeat.init (.sec 2) (.sec 6) (some (.sec 4)) 2 = .ok h) :=
  ⟨(init_validation (.sec (-1)) (.sec 8) none 2).2.2.1 (by decide),
   (init_validation (.sec 6) (.sec 2) (some (.sec 4)) 2).2.2.2.1 (by decide) (by decide),
   (init_validation (.sec 2) (.sec 6) (some (.sec 1)) 2).2.2.2.2.1 (by decide) (by decide)
     (by decide),
   (init_validation (.sec 2) (.sec 6) (some (.sec 4)) 1).2.2.2.2.2 (by decide) (by decide)
     (by decide) (by decide) (by decide),
   (init_validation (.sec 2) (.sec 6) (some (.sec 4)) 2).1.mpr (by decide)⟩
